import Mathlib

/-
Shallow embedding of the digikey catalog-scraper core
(src/digikey/param.py, search.py, attr.py, part.py, category.py).

Python runtime values that flow through the parameter layer are modelled
by the inductive `Value`.  Machine behaviour that the source relies on
(truthiness, `==` between bool and int, `iter(...)` raising TypeError on
non-iterables) is modelled explicitly below.
-/

namespace Digikey

/-- Model of the Python values that reach the parameter layer:
`None`, booleans, integers, strings, sets of label strings, and 2-tuples. -/
inductive Value where
  | none
  | bool (b : Bool)
  | int (n : Int)
  | str (s : String)
  | strSet (s : List String)
  | pair (a b : Value)
deriving DecidableEq, Repr

/-- Python `==` on the values above.  `bool` is a subclass of `int`, so
`0 == False` and `1 == True`; sets compare by extension; tuples pointwise. -/
def pyEq : Value → Value → Bool
  | .none, .none => true
  | .bool a, .bool b => a == b
  | .bool a, .int n => (if a then (1 : Int) else 0) == n
  | .int n, .bool a => n == (if a then (1 : Int) else 0)
  | .int m, .int n => m == n
  | .str s, .str t => s == t
  | .strSet s, .strSet t => s.all (t.contains ·) && t.all (s.contains ·)
  | .pair a b, .pair c d => pyEq a c && pyEq b d
  | _, _ => false

/-- Python truthiness: `None`/`False`/`0`/`""`/empty collections are falsy;
a 2-tuple is always truthy. -/
def truthy : Value → Bool
  | .none => false
  | .bool b => b
  | .int n => n != 0
  | .str s => s != ""
  | .strSet s => !s.isEmpty
  | .pair _ _ => true

/-- Python `iter(v)`: `some` lists the elements for iterables (a string
iterates its characters), `none` models the TypeError for non-iterables. -/
def iterElems : Value → Option (List Value)
  | .none => Option.none
  | .bool _ => Option.none
  | .int _ => Option.none
  | .str s => some (s.toList.map (fun c => .str c.toString))
  | .strSet s => some (s.map .str)
  | .pair a b => some [a, b]

/-- Python `isinstance(v, int)`; `bool` is a subclass of `int`. -/
def isInstInt : Value → Bool
  | .int _ => true
  | .bool _ => true
  | _ => false

/-- The integer content of a value satisfying `isInstInt` (booleans count
as 1/0). -/
def intOf : Value → Int
  | .int n => n
  | .bool b => if b then 1 else 0
  | _ => 0

/-- Lookup in an association list (first match), modelling `d[k]` /
`d.get(k)` on a Python dict kept in insertion order. -/
def dget {α : Type} (k : String) : List (String × α) → Option α
  | [] => Option.none
  | (k', v) :: rest => if k' = k then some v else dget k rest

/-- Python dict assignment `d[k] = v`: overwrite in place if the key
exists, else append. -/
def dictInsert {α : Type} (k : String) (v : α) : List (String × α) → List (String × α)
  | [] => [(k, v)]
  | (k', v') :: rest => if k' = k then (k, v) :: rest else (k', v') :: dictInsert k v rest

/-- The parameter kinds of param.py / search.py / category.py.
`filter` carries the scraped `options` dict (label to internal code);
`sort` carries the scraped `by` dict (column title to positive code). -/
inductive ParamKind where
  | base
  | bool
  | uint
  | multi
  | rohs
  | filter (options : List (String × String))
  | sort (byTable : List (String × Int))
deriving DecidableEq, Repr

/-- A search parameter: kind plus the `title`, `name`, `default` fields of
`Param.__init__`. -/
structure ParamSpec where
  kind : ParamKind
  title : String
  name : String
  default : Value := .none
deriving DecidableEq, Repr

/-- `validate` for each kind, translated from param.py (`Param.validate`,
`BoolParam.validate`, `UIntParam.validate`, `MultiParam.validate`,
`Filter.validate`) and category.py (`SortParam.validate`).  Each body is a
total Boolean function: the one primitive that can raise in the source,
`iter(value)` in `MultiParam.validate`, sits inside a `try/except` which
`iterElems`'s `Option` result models, so no `validate` call can throw. -/
def validate (p : ParamSpec) (v : Value) : Bool :=
  match p.kind with
  | .base => true
  | .bool => pyEq v .none || pyEq v (.bool false) || pyEq v (.bool true)
  | .rohs => pyEq v .none || pyEq v (.bool false) || pyEq v (.bool true)
  | .uint => v = .none || (isInstInt v && intOf v ≥ 0)
  | .multi => v = .none || (iterElems v).isSome
  | .filter options =>
    if v = .none then true
    else
      match v with
      | .strSet s => s.all (fun x => (dget x options).isSome)
      | _ => false
  | .sort byTable =>
    if v = .none then true
    else
      match v with
      | .pair a d =>
        (match a with
         | .str t => (dget t byTable).isSome
         | _ => false)
        && (match d with | .bool _ => true | _ => false)
      | _ => false

/-- Python `str(v)` for the values that can reach `Param.update_qps` in
search.py.  Only the `str`/`int`/`bool`/`None` renderings are exercised by
any claim; collections get a placeholder rendering of their elements. -/
def pyStr : Value → String
  | .none => "None"
  | .bool b => if b then "True" else "False"
  | .int n => toString n
  | .str s => s
  | .strSet s => String.intercalate ", " s
  | .pair a b => pyStr a ++ ", " ++ pyStr b

/-- `qp_kv` from param.py (with category.py's `SortParam.qp_kv` for the
sort kind): resolve `None` to the default, then encode.
`.ok Option.none` is the `(None, None)` "emit nothing" return;
`.error ()` models an uncaught exception (`KeyError` from `self.options[v]`
or `self.by[title]`, `TypeError` from unpacking / iterating a
non-iterable). `base` covers `Param.qp_kv`, inherited by `UIntParam` and
`MultiParam`. -/
def qpKv (p : ParamSpec) (value : Value) : Except Unit (Option (String × Value)) :=
  let v := if value = .none then p.default else value
  match p.kind with
  | .base | .uint | .multi =>
    if v = .none then .ok Option.none else .ok (some (p.name, v))
  | .bool =>
    if v = .none then .ok Option.none
    else .ok (some (p.name, .int (if truthy v then 1 else 0)))
  | .rohs =>
    if v = .none then .ok Option.none
    else .ok (some (if truthy v then p.name else "non" ++ p.name, .str "1"))
  | .filter options =>
    if truthy v then
      match iterElems v with
      | Option.none => .error ()
      | some elems =>
        match elems.mapM (fun e => match e with
          | .str s => dget s options
          | _ => Option.none) with
        | some codes => .ok (some (p.name, .strSet codes))
        | Option.none => .error ()
    else .ok Option.none
  | .sort byTable =>
    match iterElems v with
    | some [a, d] =>
      match a with
      | .str t =>
        match dget t byTable with
        | some code =>
          .ok (some (p.name, .int (if truthy d then code else -code)))
        | Option.none => .error ()
      | _ => .error ()
    | _ => .error ()

/-- `update_qps` from search.py, as the key/value it stores into `qps`
(`.ok Option.none` when it stores nothing).  The base `Param.update_qps`
(inherited by `UIntParam` and `MultiParam`) stores `str(value)`;
`BoolParam` stores `1 if value else 0`; `ROHSParam` picks between the
`rohs`/`nonrohs` keys.  param.py's `Filter` and category.py's `SortParam`
define no `update_qps`, so calling it on them raises (`.error`). -/
def updateQps (p : ParamSpec) (value : Value) : Except Unit (Option (String × Value)) :=
  let v := if value = .none then p.default else value
  match p.kind with
  | .base | .uint | .multi =>
    if v = .none then .ok Option.none else .ok (some (p.name, .str (pyStr v)))
  | .bool =>
    if v = .none then .ok Option.none
    else .ok (some (p.name, .int (if truthy v then 1 else 0)))
  | .rohs =>
    if v = .none then .ok Option.none
    else .ok (some (if truthy v then p.name else "non" ++ p.name, .str "1"))
  | .filter _ => .error ()
  | .sort _ => .error ()

/-- The errors `Searchable.search` can raise before delegating the fetch:
the two `ValueError`s of search.py, and `encodeFail` for an exception
escaping a parameter's `update_qps`. -/
inductive SearchError where
  | badKeys (keys : List String)
  | badValue (title : String) (value : Value)
  | encodeFail
deriving DecidableEq, Repr

/-- The `for param_title, param in self.params.items()` loop of
`Searchable.search`: look up each parameter's supplied value
(`param_values.get`, i.e. `None` when absent), raise `ValueError` naming
the title and value if `validate` rejects it, otherwise let `update_qps`
extend the query dict. -/
def qpsLoop (values : List (String × Value)) :
    List (String × ParamSpec) → List (String × Value) →
    Except SearchError (List (String × Value))
  | [], qps => .ok qps
  | (title, p) :: rest, qps =>
    let v := (dget title values).getD .none
    if validate p v then
      match updateQps p v with
      | .error _ => .error .encodeFail
      | .ok Option.none => qpsLoop values rest qps
      | .ok (some (k, ev)) => qpsLoop values rest (dictInsert k ev qps)
    else .error (.badValue title v)

/-- The supplied keys that are not discovered parameter titles
(`set(param_values.keys()) - set(self.params.keys())`). -/
def badKeysOf (params : List (String × ParamSpec)) (values : List (String × Value)) :
    List String :=
  (values.map Prod.fst).filter (fun k => (dget k params).isNone)

/-- `Searchable.search` from search.py up to the point where it delegates
the fetch: reject unknown keys, then validate and encode every discovered
parameter in order.  `.ok qps` means `self.session.get_doc(self.path, qps)`
is reached with exactly these query parameters; any `.error` means the
call raised and no fetch was performed. -/
def searchQps (params : List (String × ParamSpec)) (values : List (String × Value)) :
    Except SearchError (List (String × Value)) :=
  if badKeysOf params values = [] then qpsLoop values params []
  else .error (.badKeys (badKeysOf params values))

/-- The decoded attribute variants of attr.py, one constructor per class
that `update` can instantiate, carrying each class's parsed payload.
`defaultA` is `DefaultAttr` (unknown column marker; plain trimmed text).
`PriceAttr.value` is a locale-parsed float in the source; its textual form
is kept here since no claim touches the number itself. -/
inductive Attr where
  | defaultA (name : Option String) (title : String) (value : String)
  | compare (title : String)
  | datasheet (title : String) (link : Option String)
  | image (title : String) (link : Option String)
  | partNo (title : String) (link : String) (number : String) (rohs : Option String)
  | mfgPartNo (title : String) (value : String)
  | vendor (title : String) (value : String)
  | description (title : String) (value : String)
  | qtyAvail (title : String) (value : Int) (availability : String)
  | price (title : String) (curr : String) (valueText : String)
  | minQty (title : String) (value : Int) (stockTitle : Option String)
  | packaging (title : String) (value : String)
  | series (title : String) (value : String)
deriving DecidableEq, Repr

/-- The class-level `NAME` of each attr.py class (`None` on `Attr`,
`BasicAttr` and `DefaultAttr`). -/
def Attr.NAME : Attr → Option String
  | .defaultA _ _ _ => Option.none
  | .compare _ => some "compareParts"
  | .datasheet _ _ => some "datasheet"
  | .image _ _ => some "image"
  | .partNo _ _ _ _ => some "dkPartNumber"
  | .mfgPartNo _ _ => some "mfgPartNumber"
  | .vendor _ _ => some "vendor"
  | .description _ _ => some "description"
  | .qtyAvail _ _ _ => some "qtyAvailable"
  | .price _ _ _ => some "unitPrice"
  | .minQty _ _ _ => some "minQty"
  | .packaging _ _ => some "packaging"
  | .series _ _ => some "series"

/-- `isinstance(attr, MinQtyAttr)`. -/
def Attr.isMinQty : Attr → Bool
  | .minQty _ _ _ => true
  | _ => false

/-- `attr.value` for a `MinQtyAttr` (0 elsewhere; every use is guarded by
`isMinQty`). -/
def Attr.minVal : Attr → Int
  | .minQty _ v _ => v
  | _ => 0

/-- Truthiness of `attr.NAME` (`None` and the empty string are falsy). -/
def nameTruthy (a : Attr) : Bool :=
  match a.NAME with
  | some n => n != ""
  | Option.none => false

/-- The dict comprehension of `Part.__init__`:
`{attr.NAME: attr for attr in self.attrs if attr.NAME}` — repeated
insertion keyed by `NAME`, later attributes overwriting earlier ones. -/
def mkIndex (attrs : List Attr) : List (String × Attr) :=
  attrs.foldl
    (fun d a => if nameTruthy a then dictInsert ((a.NAME).getD "") a d else d) []

/-- `Part`: the immutable attribute tuple plus the `NAME`-keyed index. -/
structure Part where
  attrs : List Attr
  attrs_by_name : List (String × Attr)
deriving DecidableEq, Repr

/-- `Part.__init__` from part.py. -/
def Part.ofAttrs (attrs : List Attr) : Part :=
  ⟨attrs, mkIndex attrs⟩

/-- The inner `for head, td in zip(self.heads, cells)` loop of
`Category._get_parts`, over the already-decoded cell attributes of one
row: `none` models the `break` (row discarded; the trailing `else:` of the
`for` does not run), `some` returns the accumulated attribute list. -/
def rowScan (filterQty : Bool) (qty : Option Int) : List Attr → Option (List Attr)
  | [] => some []
  | a :: rest =>
    if filterQty && qty.isSome && a.isMinQty && decide (a.minVal > qty.getD 0) then
      Option.none
    else (rowScan filterQty qty rest).map (a :: ·)

/-- `Category._get_parts`: one `Part` yielded per row that survives the
minimum-quantity scan, in row order. -/
def getParts (filterQty : Bool) (qty : Option Int) : List (List Attr) → List Part
  | [] => []
  | row :: rest =>
    match rowScan filterQty qty row with
    | some attrs => Part.ofAttrs attrs :: getParts filterQty qty rest
    | Option.none => getParts filterQty qty rest

/-- Whether a row survives the quantity filter: no `MinQtyAttr` cell whose
value exceeds the requested quantity. -/
def keepRow (q : Int) (row : List Attr) : Bool :=
  row.all (fun a => !(a.isMinQty && decide (a.minVal > q)))

/-- A fetched results page as `Category.search` consumes it: the decoded
rows of `table#productTable` (`none` when the table is absent), and the
`atoi`-parsed "page X/Y" indicator (`thisPage`, `reportedSize`). -/
structure Doc where
  table : Option (List (List Attr))
  thisPage : Int
  reportedSize : Int

/-- Observable events of the `Category.search` pagination generator.
`typeError` is the `TypeError` a Python call raises when its positional
arguments do not bind against the callee signature. -/
inductive PageEvent where
  | fetch (page : Nat)
  | yieldPart (p : Part)
  | assertFail (reported : Int) (requested : Nat)
  | typeError
deriving DecidableEq, Repr

/-- The positional parameter count (beyond `self`) of the frozen
`Searchable.search`: search.py declares `def search(self, param_values)`. -/
def searchableSearchParams : Nat := 1

/-- The positional argument count category.py passes at the fetch seam:
`Category.search` calls `super().search(param_values, X)` where `X`
is the extra query-parameter dict carrying the page number. -/
def categorySuperSearchArgs : Nat := 2

/-- The `super().search(param_values, X)` call of `Category.search`
resolved against the frozen `Searchable.search`: Python binds positional
arguments strictly, so the call runs the callee (producing the result
document) only when the argument count matches the parameter count, and
raises `TypeError` without entering the callee otherwise.  `site` is the
document the fetch would produce for each page were the binding to
succeed. -/
def superSearch (site : Nat → Doc) (page : Nat) : Except Unit Doc :=
  if categorySuperSearchArgs = searchableSearchParams then .ok (site page)
  else .error ()

/-- The `for page in count(1)` loop of `Category.search` as an event
trace, against the frozen modules: each iteration first performs the
two-positional-argument `super().search` call (`superSearch`); if the
binding fails the generator raises `TypeError` and ends with no fetch; on
a successful fetch it stops if no product table, yields the surviving
parts, then checks `assert(this_page == page)` (a mismatch raises and
ends the trace) and stops once `page >= size`.  `fuel` bounds the
unbounded `count(1)` iterator. -/
def categoryTrace (site : Nat → Doc) (filterQty : Bool) (qty : Option Int) :
    Nat → Nat → List PageEvent
  | 0, _ => []
  | fuel + 1, page =>
    match superSearch site page with
    | .error _ => [PageEvent.typeError]
    | .ok doc =>
      PageEvent.fetch page ::
        match doc.table with
        | Option.none => []
        | some rows =>
          (getParts filterQty qty rows).map PageEvent.yieldPart ++
            (if doc.thisPage = (page : Int) then
              (if (page : Int) ≥ doc.reportedSize then []
               else categoryTrace site filterQty qty fuel (page + 1))
             else [PageEvent.assertFail doc.thisPage page])

/-- Modelled from the spec: the searchable contract of section 4.4 takes
`(valuesByTitle, extraQueryParams)` — the two-argument form that
category.py invokes at its fetch seam but that the frozen search.py does
not provide.  `categoryTraceSpec` is the same `Category.search` loop run
against that intended contract, with `site` the page-to-document fetch
collaborator, so the binding always succeeds and each iteration fetches
its page. -/
def categoryTraceSpec (site : Nat → Doc) (filterQty : Bool) (qty : Option Int) :
    Nat → Nat → List PageEvent
  | 0, _ => []
  | fuel + 1, page =>
    let doc := site page
    PageEvent.fetch page ::
      match doc.table with
      | Option.none => []
      | some rows =>
        (getParts filterQty qty rows).map PageEvent.yieldPart ++
          (if doc.thisPage = (page : Int) then
            (if (page : Int) ≥ doc.reportedSize then []
             else categoryTraceSpec site filterQty qty fuel (page + 1))
           else [PageEvent.assertFail doc.thisPage page])

/-- The pages fetched along a trace, in order. -/
def fetchesOf (tr : List PageEvent) : List Nat :=
  tr.filterMap (fun e => match e with | .fetch n => some n | _ => Option.none)

/-- The expected event block for `cnt` consecutive consistent pages
starting at page `a`: each page's fetch followed by its yielded parts. -/
def pagesEvents (filterQty : Bool) (qty : Option Int) (rows : Nat → List (List Attr)) :
    Nat → Nat → List PageEvent
  | _, 0 => []
  | a, cnt + 1 =>
    PageEvent.fetch a :: (getParts filterQty qty (rows a)).map PageEvent.yieldPart ++
      pagesEvents filterQty qty rows (a + 1) cnt

/-- Python `isinstance(v, set)` for the modelled values. -/
def isSet : Value → Bool
  | .strSet _ => true
  | _ => false

lemma dget_mem {α : Type} {k : String} {l : List (String × α)} {v : α}
    (h : dget k l = some v) : (k, v) ∈ l := by
  induction l with
  | nil => simp [dget] at h
  | cons hd tl ih =>
    obtain ⟨k', v'⟩ := hd
    by_cases hk : k' = k
    · subst hk
      simp [dget] at h
      simp [h]
    · simp [dget, hk] at h
      exact List.mem_cons_of_mem _ (ih h)

lemma dget_isSome_iff {α : Type} (k : String) (l : List (String × α)) :
    (dget k l).isSome = true ↔ k ∈ l.map Prod.fst := by
  induction l with
  | nil => simp [dget]
  | cons hd tl ih =>
    obtain ⟨k', v'⟩ := hd
    by_cases hk : k' = k
    · subst hk; simp [dget]
    · simp [dget, hk, ih, Ne.symm hk]

lemma dget_dictInsert {α : Type} (k k' : String) (v : α) (d : List (String × α)) :
    dget k' (dictInsert k v d) = if k = k' then some v else dget k' d := by
  induction d with
  | nil => simp [dictInsert, dget]
  | cons hd tl ih =>
    obtain ⟨k₀, v₀⟩ := hd
    by_cases h0 : k₀ = k
    · subst h0
      by_cases h1 : k₀ = k'
      · subst h1; simp [dictInsert, dget]
      · simp [dictInsert, dget, h1]
    · by_cases h1 : k₀ = k'
      · subst h1
        simp [dictInsert, dget, h0, Ne.symm h0]
      · simp [dictInsert, dget, h0, h1, ih]

/-- Claim C6 counterexample: for a concrete Filter parameter,
`validate None` is true although `None` is not a set, so "validate(v) is
true iff v is a set and v is a subset of the option labels" fails at
`v = None`. -/
theorem filter_validate_none_not_set :
    validate ⟨.filter [("Active", "0")], "Part Status", "pv1989", .none⟩ Value.none = true ∧
      isSet Value.none = false := by
  constructor <;> rfl

/-- Claim C6 as amended: for every Filter parameter, `validate v` is true
iff `v` is `None`, or `v` is a set all of whose elements are known option
labels.  (The original claim omitted the `None` disjunct that
`Filter.validate`'s first branch introduces.) -/
theorem filter_validate_characterization (title name : String) (d : Value)
    (options : List (String × String)) (v : Value) :
    validate ⟨.filter options, title, name, d⟩ v = true ↔
      (v = .none ∨ ∃ s, v = .strSet s ∧ ∀ x ∈ s, x ∈ options.map Prod.fst) := by
  cases v <;>
    simp [validate, isSet, List.all_eq_true, dget_isSome_iff]

/-- Witness for C6's amended theorem: a singleton set of a known label
validates. -/
theorem filter_validate_characterization_witness :
    validate ⟨.filter [("Active", "0")], "Part Status", "pv1989", .none⟩
      (.strSet ["Active"]) = true :=
  (filter_validate_characterization "Part Status" "pv1989" .none [("Active", "0")]
    (.strSet ["Active"])).mpr (Or.inr ⟨["Active"], rfl, by simp⟩)

/-- Claim C7: for a Sort parameter whose code table assigns only positive
codes (the constructor's `assert(code > 0)`), encoding a known column
ascending yields the column's positive code and encoding it descending
yields the negation of that same code.  `qpKv` is a pure function of the
parameter and value, so the code is identical across repeated calls. -/
theorem sort_qpkv_codes (title name : String) (d : Value)
    (byTable : List (String × Int)) (col : String) (code : Int)
    (hpos : ∀ c ∈ byTable, 0 < c.2) (hcol : dget col byTable = some code) :
    0 < code ∧
      qpKv ⟨.sort byTable, title, name, d⟩ (.pair (.str col) (.bool true)) =
        .ok (some (name, .int code)) ∧
      qpKv ⟨.sort byTable, title, name, d⟩ (.pair (.str col) (.bool false)) =
        .ok (some (name, .int (-code))) := by
  refine ⟨hpos (col, code) (dget_mem hcol), ?_, ?_⟩ <;>
    simp [qpKv, iterElems, hcol, truthy]

/-- Witness for C7 at a concrete sort table. -/
theorem sort_qpkv_codes_witness :
    (0 : Int) < 5 ∧
      qpKv ⟨.sort [("Unit Price", 5)], "Ascending/Descending", "ColumnSort", .none⟩
          (.pair (.str "Unit Price") (.bool true)) =
        .ok (some ("ColumnSort", .int 5)) ∧
      qpKv ⟨.sort [("Unit Price", 5)], "Ascending/Descending", "ColumnSort", .none⟩
          (.pair (.str "Unit Price") (.bool false)) =
        .ok (some ("ColumnSort", .int (-5))) :=
  sort_qpkv_codes "Ascending/Descending" "ColumnSort" .none
    [("Unit Price", 5)] "Unit Price" 5 (by decide) (by decide)

/-- Claim C8: for a ROHS parameter named "rohs", `qp_kv` encodes `True`
as `("rohs", "1")`, `False` as `("nonrohs", "1")`, and `None` with no
default yields no key. -/
theorem rohs_qpkv_encoding (title : String) (d : Value) :
    qpKv ⟨.rohs, title, "rohs", d⟩ (.bool true) = .ok (some ("rohs", .str "1")) ∧
      qpKv ⟨.rohs, title, "rohs", d⟩ (.bool false) = .ok (some ("nonrohs", .str "1")) ∧
      (d = .none → qpKv ⟨.rohs, title, "rohs", d⟩ .none = .ok Option.none) := by
  refine ⟨?_, ?_, ?_⟩
  · simp [qpKv, truthy]
  · simp [qpKv, truthy]
  · intro h; subst h; simp [qpKv]

/-- Witness for C8 at a concrete ROHS parameter. -/
theorem rohs_qpkv_encoding_witness :
    qpKv ⟨.rohs, "ROHS Compliant", "rohs", .none⟩ .none = .ok Option.none :=
  (rohs_qpkv_encoding "ROHS Compliant" .none).2.2 rfl

/-- Claim C9 counterexample: a Sort parameter with no default, encoded
with value `None`, raises (`title, dirn = value` unpacks `None`) instead
of emitting nothing — refuting "for every parameter kind ... the
operation emits nothing rather than failing". -/
theorem sort_qpkv_none_fails :
    qpKv ⟨.sort [("Unit Price", 5)], "Ascending/Descending", "ColumnSort", .none⟩
        Value.none = .error () := rfl

/-- Claim C9 as amended: every kind's `qp_kv` with value `None`
substitutes the parameter's default; for every kind except Sort, a still
absent resolved value makes the encoder emit nothing without failing,
while Sort's encoder fails on an absent resolved value. -/
theorem qpkv_default_resolution (p : ParamSpec) :
    qpKv p .none = qpKv p p.default ∧
      (p.default = .none → (∀ byTable, p.kind ≠ .sort byTable) →
        qpKv p .none = .ok Option.none) ∧
      (p.default = .none → ∀ byTable, p.kind = .sort byTable →
        qpKv p .none = .error ()) := by
  obtain ⟨k, t, n, d⟩ := p
  refine ⟨?_, ?_, ?_⟩
  · simp only [qpKv]
    rcases hd : d with _ | _ | _ | _ | _ | _ <;> simp
  · intro hd hk
    subst hd
    cases k <;> simp [qpKv, truthy]
    exact absurd rfl (hk _)
  · intro hd byTable hk
    subst hd
    cases hk
    simp [qpKv, iterElems]

/-- Witness for C9's amended theorem at a concrete Bool parameter with no
default. -/
theorem qpkv_default_resolution_witness :
    qpKv ⟨.bool, "In Stock", "stock", .none⟩ .none = .ok Option.none :=
  (qpkv_default_resolution ⟨.bool, "In Stock", "stock", .none⟩).2.1 rfl
    (fun _ h => ParamKind.noConfusion h)

/-- Claim C10: `BoolParam.validate` uses Python `in`, hence `==`, so any
value numerically equal to `False` or `True` passes — in particular the
integers 0 and 1 — and such a value passes boolean validation at the
public search interface (`Searchable.search` reaches the fetch). -/
theorem bool_validate_numeric (title name : String) (d : Value) :
    validate ⟨.bool, title, name, d⟩ (.int 0) = true ∧
      validate ⟨.bool, title, name, d⟩ (.int 1) = true ∧
      (∀ v, (pyEq v (.bool false) || pyEq v (.bool true)) = true →
        validate ⟨.bool, title, name, d⟩ v = true) ∧
      searchQps [(title, ⟨.bool, title, name, .none⟩)] [(title, .int 0)] =
        .ok [(name, .int 0)] := by
  refine ⟨by simp [validate, pyEq], by simp [validate, pyEq], ?_, ?_⟩
  · intro v hv
    simp only [validate, Bool.or_eq_true] at hv ⊢
    rcases hv with h | h
    · exact Or.inl (Or.inr h)
    · exact Or.inr h
  · simp [searchQps, badKeysOf, dget, qpsLoop, validate, pyEq, updateQps, truthy,
      dictInsert]

/-- Witness for C10: integer 0 passes boolean validation, derived from the
numeric-equality clause. -/
theorem bool_validate_numeric_witness :
    validate ⟨.bool, "In Stock", "stock", .none⟩ (.int 0) = true :=
  (bool_validate_numeric "In Stock" "stock" .none).2.2.1 (.int 0) (by decide)

lemma rowScan_eq_filter (q : Int) (row : List Attr) :
    rowScan true (some q) row = if keepRow q row then some row else Option.none := by
  induction row with
  | nil => simp [rowScan, keepRow]
  | cons a rest ih =>
    simp only [rowScan, Option.isSome_some, Bool.true_and, Option.getD_some, ih]
    by_cases h : (a.isMinQty && decide (a.minVal > q)) = true
    · rw [if_pos h]
      have hk : keepRow q (a :: rest) = false := by
        simp only [keepRow, List.all_cons, h, Bool.not_true, Bool.false_and]
      rw [hk]
      simp
    · have hc : (a.isMinQty && decide (a.minVal > q)) = false := by
        rcases Bool.eq_false_or_eq_true (a.isMinQty && decide (a.minVal > q)) with h' | h'
        · exact absurd h' h
        · exact h'
      rw [if_neg h]
      have hk : keepRow q (a :: rest) = keepRow q rest := by
        simp only [keepRow, List.all_cons, hc, Bool.not_false, Bool.true_and]
      rw [hk]
      by_cases hkr : keepRow q rest = true
      · rw [if_pos hkr, if_pos hkr]
        rfl
      · rw [if_neg hkr, if_neg hkr]
        rfl

/-- Claim C2: with quantity filtering enabled and a requested quantity
`q`, `_get_parts` yields one Part per row, in order, for exactly the rows
with no MinimumQuantity attribute exceeding `q`; a row containing such an
attribute contributes no Part at all. -/
theorem minqty_row_filtering (q : Int) (rows : List (List Attr)) :
    getParts true (some q) rows = (rows.filter (keepRow q)).map Part.ofAttrs ∧
      ∀ row : List Attr,
        (keepRow q row = false ↔ ∃ a ∈ row, a.isMinQty = true ∧ q < a.minVal) := by
  constructor
  · induction rows with
    | nil => simp [getParts]
    | cons row rest ih =>
      simp only [getParts, rowScan_eq_filter, List.filter_cons]
      by_cases hk : keepRow q row = true <;> simp [hk, ih]
  · intro row
    constructor
    · intro h
      have h' : ¬ (keepRow q row = true) := by
        rw [h]
        exact Bool.false_ne_true
      simp only [keepRow, List.all_eq_true] at h'
      push_neg at h'
      obtain ⟨a, ha, hcond⟩ := h'
      refine ⟨a, ha, ?_⟩
      rcases Bool.eq_false_or_eq_true a.isMinQty with hm | hm
      · rcases Bool.eq_false_or_eq_true (decide (a.minVal > q)) with hq | hq
        · exact ⟨hm, by simpa using hq⟩
        · exact absurd (by simp [hq]) hcond
      · exact absurd (by simp [hm]) hcond
    · intro ⟨a, ha, hm, hq⟩
      rcases Bool.eq_false_or_eq_true (keepRow q row) with h | h
      · simp only [keepRow, List.all_eq_true] at h
        have := h a ha
        simp [hm, hq] at this
      · exact h

/-- Witness for C2: a single-cell row whose MinimumQuantity value is 25
is excluded at requested quantity 10 and included at requested
quantity 30. -/
theorem minqty_row_filtering_witness :
    getParts true (some 10) [[Attr.minQty "Minimum Quantity" 25 Option.none]] = [] ∧
      getParts true (some 30) [[Attr.minQty "Minimum Quantity" 25 Option.none]] =
        [Part.ofAttrs [Attr.minQty "Minimum Quantity" 25 Option.none]] := by
  constructor
  · rw [(minqty_row_filtering 10 [[Attr.minQty "Minimum Quantity" 25 Option.none]]).1]
    rfl
  · rw [(minqty_row_filtering 30 [[Attr.minQty "Minimum Quantity" 25 Option.none]]).1]
    rfl

/-- Claim C4 counterexample: a Part built from a lone compare attribute
indexes it under its kind "compareParts" — the claim that the compare
attribute is excluded from the kind index is false (`CompareAttr.NAME`
is the truthy string `'compareParts'`, so the `if attr.NAME` guard keeps
it). -/
theorem compare_attr_is_indexed :
    (Part.ofAttrs [Attr.compare "Compare Parts"]).attrs_by_name ≠ [] ∧
      dget "compareParts" (Part.ofAttrs [Attr.compare "Compare Parts"]).attrs_by_name =
        some (Attr.compare "Compare Parts") := by
  constructor
  · intro h
    simp [Part.ofAttrs, mkIndex, nameTruthy, Attr.NAME, dictInsert] at h
  · rfl

/-- The last attribute in `attrs` whose truthy `NAME` equals `k` — the
one the overwriting dict comprehension keeps. -/
def lastNamed (k : String) (attrs : List Attr) : Option Attr :=
  (attrs.filter (fun a => nameTruthy a && decide (a.NAME = some k))).getLast?

lemma attr_name_ne_empty (a : Attr) : a.NAME ≠ some "" := by
  cases a <;> simp [Attr.NAME]

lemma nameTruthy_of_name {a : Attr} {k : String} (h : a.NAME = some k) :
    nameTruthy a = true := by
  have hne : k ≠ "" := fun he => attr_name_ne_empty a (he ▸ h)
  simp [nameTruthy, h, hne]

lemma getLast?_cons_eq_or {α : Type} (a : α) (l : List α) :
    (a :: l).getLast? = l.getLast?.or (some a) := by
  induction l generalizing a with
  | nil => simp
  | cons b l ih =>
    rw [List.getLast?_cons_cons, ih b]
    rcases hg : l.getLast? with _ | x
    · simp [List.getLast?_eq_none_iff] at hg
      subst hg
      simp
    · simp

lemma dget_index_fold (attrs : List Attr) (d : List (String × Attr)) (k : String) :
    dget k (attrs.foldl
        (fun d a => if nameTruthy a then dictInsert ((a.NAME).getD "") a d else d) d) =
      ((lastNamed k attrs).or (dget k d)) := by
  induction attrs generalizing d with
  | nil => simp [lastNamed]
  | cons a rest ih =>
    simp only [List.foldl_cons]
    rw [ih]
    by_cases ht : nameTruthy a = true
    · obtain ⟨n, hn⟩ : ∃ n, a.NAME = some n := by
        rcases hna : a.NAME with _ | n
        · simp [nameTruthy, hna] at ht
        · exact ⟨n, rfl⟩
      by_cases hnk : n = k
      · rw [hnk] at hn
        have hfil : List.filter (fun x => nameTruthy x && decide (x.NAME = some k))
              (a :: rest) =
            a :: List.filter (fun x => nameTruthy x && decide (x.NAME = some k)) rest :=
          List.filter_cons_of_pos (by simp [ht, hn])
        have hlast : lastNamed k (a :: rest) = (lastNamed k rest).or (some a) := by
          simp only [lastNamed]
          rw [hfil]
          exact getLast?_cons_eq_or a _
        have hstep : (if nameTruthy a then dictInsert ((a.NAME).getD "") a d else d) =
            dictInsert k a d := by
          simp [ht, hn]
        rw [hstep, hlast, dget_dictInsert, if_pos rfl]
        rcases lastNamed k rest with _ | x <;> simp [Option.or]
      · have hfil : List.filter (fun x => nameTruthy x && decide (x.NAME = some k))
              (a :: rest) =
            List.filter (fun x => nameTruthy x && decide (x.NAME = some k)) rest :=
          List.filter_cons_of_neg (by simp [hn, hnk])
        have hlast : lastNamed k (a :: rest) = lastNamed k rest := by
          simp only [lastNamed]
          rw [hfil]
        have hstep : (if nameTruthy a then dictInsert ((a.NAME).getD "") a d else d) =
            dictInsert n a d := by
          simp [ht, hn]
        rw [hstep, hlast, dget_dictInsert, if_neg hnk]
    · have ht' : nameTruthy a = false := by
        rcases Bool.eq_false_or_eq_true (nameTruthy a) with h' | h'
        · exact absurd h' ht
        · exact h'
      have hfil : List.filter (fun x => nameTruthy x && decide (x.NAME = some k))
            (a :: rest) =
          List.filter (fun x => nameTruthy x && decide (x.NAME = some k)) rest :=
        List.filter_cons_of_neg (by simp [ht'])
      have hlast : lastNamed k (a :: rest) = lastNamed k rest := by
        simp only [lastNamed]
        rw [hfil]
      have hstep : (if nameTruthy a then dictInsert ((a.NAME).getD "") a d else d) = d := by
        simp [ht]
      rw [hstep, hlast]

lemma dget_mkIndex (attrs : List Attr) (k : String) :
    dget k (mkIndex attrs) = lastNamed k attrs := by
  rw [mkIndex, dget_index_fold]
  simp [dget]

lemma lastNamed_mem {k : String} {attrs : List Attr} {a : Attr}
    (h : lastNamed k attrs = some a) : a ∈ attrs ∧ a.NAME = some k := by
  have hmem : a ∈ attrs.filter (fun a => nameTruthy a && decide (a.NAME = some k)) :=
    List.mem_of_mem_getLast? h
  rw [List.mem_filter] at hmem
  refine ⟨hmem.1, ?_⟩
  have := hmem.2
  simp only [Bool.and_eq_true, decide_eq_true_eq] at this
  exact this.2

/-- Claim C4 as amended: a Part retains all attributes in order in its
sequence; its kind index contains exactly the attributes with a truthy
(non-null) `NAME`, keyed by that name with later duplicates overwriting
earlier ones — which includes the compare attribute (kind
"compareParts"), while unnamed attributes are excluded from the index but
retained in the sequence. -/
theorem part_index_characterization (attrs : List Attr) :
    (Part.ofAttrs attrs).attrs = attrs ∧
      (∀ k a, dget k (Part.ofAttrs attrs).attrs_by_name = some a →
        a ∈ attrs ∧ a.NAME = some k) ∧
      (∀ a ∈ attrs, ∀ k, a.NAME = some k →
        ∃ a', dget k (Part.ofAttrs attrs).attrs_by_name = some a' ∧
          a' ∈ attrs ∧ a'.NAME = some k) ∧
      (∀ a ∈ attrs, a.NAME = Option.none →
        ∀ k, dget k (Part.ofAttrs attrs).attrs_by_name ≠ some a) := by
  have hidx : ∀ k, dget k (Part.ofAttrs attrs).attrs_by_name = lastNamed k attrs :=
    fun k => dget_mkIndex attrs k
  refine ⟨rfl, ?_, ?_, ?_⟩
  · intro k a h
    rw [hidx] at h
    exact lastNamed_mem h
  · intro a ha k hk
    have hne : (attrs.filter (fun a => nameTruthy a && decide (a.NAME = some k))) ≠ [] := by
      intro hnil
      have : a ∈ attrs.filter (fun a => nameTruthy a && decide (a.NAME = some k)) := by
        rw [List.mem_filter]
        exact ⟨ha, by simp [nameTruthy_of_name hk, hk]⟩
      rw [hnil] at this
      simp at this
    obtain ⟨a', ha'⟩ := Option.isSome_iff_exists.mp
      (List.getLast?_isSome.mpr hne)
    have hlast : lastNamed k attrs = some a' := ha'
    exact ⟨a', by rw [hidx]; exact hlast, lastNamed_mem hlast⟩
  · intro a ha hnone k h
    rw [hidx] at h
    have := (lastNamed_mem h).2
    rw [hnone] at this
    cases this

/-- Witness for C4's amended theorem: a vendor attribute is retained and
indexed under "vendor". -/
theorem part_index_characterization_witness :
    (Part.ofAttrs [Attr.vendor "Vendor" "Acme"]).attrs = [Attr.vendor "Vendor" "Acme"] ∧
      ∃ a', dget "vendor" (Part.ofAttrs [Attr.vendor "Vendor" "Acme"]).attrs_by_name =
          some a' ∧ a' ∈ [Attr.vendor "Vendor" "Acme"] ∧ a'.NAME = some "vendor" :=
  ⟨(part_index_characterization [Attr.vendor "Vendor" "Acme"]).1,
    (part_index_characterization [Attr.vendor "Vendor" "Acme"]).2.2.1
      (Attr.vendor "Vendor" "Acme") (by simp) "vendor" rfl⟩

/-- The parameter kinds whose classes live in search.py itself (the module
of `Searchable`); param.py's `Filter` and category.py's `SortParam` are
the two without an `update_qps` method. -/
def isCoreKind : ParamKind → Bool
  | .filter _ => false
  | .sort _ => false
  | _ => true

lemma updateQps_core {p : ParamSpec} (hk : isCoreKind p.kind = true) (v : Value) :
    ∃ r, updateQps p v = .ok r := by
  rcases hp : p.kind with _ | _ | _ | _ | _ | options | byTable
  case base =>
    simp only [updateQps, hp]
    split
    · split <;> exact ⟨_, rfl⟩
    · exact ⟨_, rfl⟩
  case bool =>
    simp only [updateQps, hp]
    split
    · split <;> exact ⟨_, rfl⟩
    · exact ⟨_, rfl⟩
  case uint =>
    simp only [updateQps, hp]
    split
    · split <;> exact ⟨_, rfl⟩
    · exact ⟨_, rfl⟩
  case multi =>
    simp only [updateQps, hp]
    split
    · split <;> exact ⟨_, rfl⟩
    · exact ⟨_, rfl⟩
  case rohs =>
    simp only [updateQps, hp]
    split
    · split <;> exact ⟨_, rfl⟩
    · exact ⟨_, rfl⟩
  case filter =>
    rw [hp] at hk
    simp [isCoreKind] at hk
  case sort =>
    rw [hp] at hk
    simp [isCoreKind] at hk

lemma qpsLoop_ok_validates {values : List (String × Value)} :
    ∀ {ps : List (String × ParamSpec)} {qps : List (String × Value)}
      {qout : List (String × Value)},
      qpsLoop values ps qps = .ok qout →
      ∀ t p, (t, p) ∈ ps → validate p ((dget t values).getD .none) = true := by
  intro ps
  induction ps with
  | nil => intro qps qout h t p hm; simp at hm
  | cons hd rest ih =>
    obtain ⟨t0, p0⟩ := hd
    intro qps qout h t p hm
    simp only [qpsLoop] at h
    by_cases hv : validate p0 ((dget t0 values).getD .none) = true
    · rw [if_pos hv] at h
      rcases List.mem_cons.mp hm with he | hm'
      · obtain ⟨ht, hp⟩ := Prod.mk.injEq .. ▸ he
        subst ht; subst hp
        exact hv
      · rcases hu : updateQps p0 ((dget t0 values).getD .none) with e | r
        · rw [hu] at h; cases h
        · rw [hu] at h
          rcases r with _ | ⟨kk, ev⟩
          · exact ih h t p hm'
          · exact ih h t p hm'
    · rw [if_neg hv] at h
      cases h

lemma qpsLoop_badValue {values : List (String × Value)} :
    ∀ {ps : List (String × ParamSpec)} {qps : List (String × Value)}
      {t : String} {v : Value},
      qpsLoop values ps qps = .error (.badValue t v) →
      ∃ p, (t, p) ∈ ps ∧ validate p v = false ∧ v = (dget t values).getD .none := by
  intro ps
  induction ps with
  | nil => intro qps t v h; cases h
  | cons hd rest ih =>
    obtain ⟨t0, p0⟩ := hd
    intro qps t v h
    simp only [qpsLoop] at h
    by_cases hv : validate p0 ((dget t0 values).getD .none) = true
    · rw [if_pos hv] at h
      rcases hu : updateQps p0 ((dget t0 values).getD .none) with e | r
      · rw [hu] at h
        cases h
      · rw [hu] at h
        rcases r with _ | ⟨kk, ev⟩
        · obtain ⟨p, hmem, hval, hres⟩ := ih h
          exact ⟨p, List.mem_cons_of_mem _ hmem, hval, hres⟩
        · obtain ⟨p, hmem, hval, hres⟩ := ih h
          exact ⟨p, List.mem_cons_of_mem _ hmem, hval, hres⟩
    · rw [if_neg hv] at h
      injection h with he
      injection he with ht hvv
      subst ht
      subst hvv
      refine ⟨p0, List.mem_cons_self .., ?_, rfl⟩
      rcases Bool.eq_false_or_eq_true (validate p0 ((dget t0 values).getD .none)) with h' | h'
      · exact absurd h' hv
      · exact h'

lemma qpsLoop_invalid_gives_badValue {values : List (String × Value)} :
    ∀ {ps : List (String × ParamSpec)} {qps : List (String × Value)},
      (∀ t p, (t, p) ∈ ps → isCoreKind p.kind = true) →
      (∃ t p, (t, p) ∈ ps ∧ validate p ((dget t values).getD .none) = false) →
      ∃ t' v', qpsLoop values ps qps = .error (.badValue t' v') := by
  intro ps
  induction ps with
  | nil =>
    intro qps _ hex
    obtain ⟨t, p, hm, _⟩ := hex
    simp at hm
  | cons hd rest ih =>
    obtain ⟨t0, p0⟩ := hd
    intro qps hcore hex
    by_cases hv : validate p0 ((dget t0 values).getD .none) = true
    · have hex' : ∃ t p, (t, p) ∈ rest ∧ validate p ((dget t values).getD .none) = false := by
        obtain ⟨t, p, hm, hf⟩ := hex
        rcases List.mem_cons.mp hm with he | hm'
        · obtain ⟨ht, hp⟩ := Prod.mk.injEq .. ▸ he
          subst ht; subst hp
          rw [hv] at hf
          cases hf
        · exact ⟨t, p, hm', hf⟩
      have hcore' : ∀ t p, (t, p) ∈ rest → isCoreKind p.kind = true :=
        fun t p hm => hcore t p (List.mem_cons_of_mem _ hm)
      obtain ⟨r, hu⟩ :=
        updateQps_core (hcore t0 p0 (List.mem_cons_self ..)) ((dget t0 values).getD .none)
      simp only [qpsLoop]
      rw [if_pos hv, hu]
      rcases r with _ | ⟨kk, ev⟩
      · exact ih hcore' hex'
      · exact ih hcore' hex'
    · refine ⟨t0, (dget t0 values).getD .none, ?_⟩
      simp only [qpsLoop]
      rw [if_neg hv]

/-- Claim C3 counterexample: with a discovered parameter set holding a
category.py SortParam ahead of a param.py Filter, a supplied filter value
that fails its validator (the known key "F" mapped to the integer 3)
makes `Searchable.search` die in the earlier parameter's missing
`update_qps` (`AttributeError`, modelled as `encodeFail`) — an error
naming neither the offending parameter title nor the rejected value —
refuting the claim that a failing supplied value always raises an error
naming them. -/
theorem search_invalid_value_error_names_nothing :
    validate ⟨.filter [("Active", "0")], "F", "pv1989", .none⟩ (.int 3) = false ∧
      dget "F"
        [("Sort", (⟨.sort [("Unit Price", 5)], "Sort", "ColumnSort", .none⟩ : ParamSpec)),
         ("F", ⟨.filter [("Active", "0")], "F", "pv1989", .none⟩)] =
        some ⟨.filter [("Active", "0")], "F", "pv1989", .none⟩ ∧
      badKeysOf
        [("Sort", ⟨.sort [("Unit Price", 5)], "Sort", "ColumnSort", .none⟩),
         ("F", ⟨.filter [("Active", "0")], "F", "pv1989", .none⟩)]
        [("F", Value.int 3)] = [] ∧
      searchQps
        [("Sort", ⟨.sort [("Unit Price", 5)], "Sort", "ColumnSort", .none⟩),
         ("F", ⟨.filter [("Active", "0")], "F", "pv1989", .none⟩)]
        [("F", Value.int 3)] = .error .encodeFail :=
  ⟨rfl, rfl, rfl, rfl⟩

/-- Claim C3 as amended: `Searchable.search` raises a `ValueError` naming
exactly the unknown supplied keys before anything else; it reaches the
fetch (`get_doc`) only when every supplied key is a discovered title and
every supplied value passes its parameter's validator; any validation
error it raises names a genuinely offending title together with the
rejected resolved value; and when the discovered parameters are all of
the kinds search.py itself defines (which carry `update_qps`), a supplied
invalid value always surfaces as such a naming error.  (The original
claim promised the naming unconditionally; a param.py Filter or
category.py SortParam in the discovered set can instead raise an unnamed
`AttributeError` first, as the counterexample shows.) -/
theorem searchable_search_validation (params : List (String × ParamSpec))
    (values : List (String × Value)) :
    ((∃ k ∈ values.map Prod.fst, dget k params = Option.none) →
      searchQps params values = .error (.badKeys (badKeysOf params values)) ∧
      badKeysOf params values ≠ [] ∧
      ∀ k ∈ badKeysOf params values,
        dget k params = Option.none ∧ k ∈ values.map Prod.fst) ∧
    (∀ qout, searchQps params values = .ok qout →
      ∀ k v, dget k values = some v →
        ∃ p, dget k params = some p ∧ validate p v = true) ∧
    (∀ t v, searchQps params values = .error (.badValue t v) →
      ∃ p, (t, p) ∈ params ∧ validate p v = false ∧ v = (dget t values).getD .none) ∧
    ((∀ t p, (t, p) ∈ params → isCoreKind p.kind = true) →
      badKeysOf params values = [] →
      (∃ t p, (t, p) ∈ params ∧ validate p ((dget t values).getD .none) = false) →
      ∃ t' v' p', searchQps params values = .error (.badValue t' v') ∧
        (t', p') ∈ params ∧ validate p' v' = false) := by
  refine ⟨?_, ?_, ?_, ?_⟩
  · rintro ⟨k, hk, hnone⟩
    have hmem : k ∈ badKeysOf params values := by
      rw [badKeysOf, List.mem_filter]
      exact ⟨hk, by simp [hnone]⟩
    have hne : badKeysOf params values ≠ [] := List.ne_nil_of_mem hmem
    refine ⟨by rw [searchQps, if_neg hne], hne, ?_⟩
    intro k' hk'
    rw [badKeysOf, List.mem_filter] at hk'
    exact ⟨Option.isNone_iff_eq_none.mp (by simpa using hk'.2), hk'.1⟩
  · intro qout h k v hkv
    rw [searchQps] at h
    by_cases hb : badKeysOf params values = []
    · rw [if_pos hb] at h
      have hkmem : k ∈ values.map Prod.fst :=
        List.mem_map_of_mem Prod.fst (dget_mem hkv)
      have hsome : (dget k params).isNone ≠ true := by
        intro hno
        have : k ∈ badKeysOf params values := by
          rw [badKeysOf, List.mem_filter]
          exact ⟨hkmem, by simpa using hno⟩
        rw [hb] at this
        simp at this
      obtain ⟨p, hp⟩ : ∃ p, dget k params = some p := by
        rcases hdp : dget k params with _ | p
        · exact absurd (by simp [hdp]) hsome
        · exact ⟨p, rfl⟩
      refine ⟨p, hp, ?_⟩
      have := qpsLoop_ok_validates h k p (dget_mem hp)
      rwa [hkv, Option.getD_some] at this
    · rw [if_neg hb] at h
      cases h
  · intro t v h
    rw [searchQps] at h
    by_cases hb : badKeysOf params values = []
    · rw [if_pos hb] at h
      exact qpsLoop_badValue h
    · rw [if_neg hb] at h
      obtain ⟨he⟩ := h
  · intro hcore hb hex
    obtain ⟨t', v', hloop⟩ := qpsLoop_invalid_gives_badValue hcore hex
    have hq : searchQps params values = .error (.badValue t' v') := by
      rw [searchQps, if_pos hb]
      exact hloop
    obtain ⟨p', hmem, hval, _⟩ := qpsLoop_badValue hloop
    exact ⟨t', v', p', hq, hmem, hval⟩

/-- Witness for C3: an unknown supplied key is rejected with a `badKeys`
error naming it, before any fetch. -/
theorem searchable_search_validation_witness :
    searchQps [] [("zzz", Value.int 1)] = .error (.badKeys ["zzz"]) := by
  have h := (searchable_search_validation [] [("zzz", Value.int 1)]).1
    ⟨"zzz", by simp, rfl⟩
  exact h.1

lemma trace_step_consistent (site : Nat → Doc) (f : Bool) (q : Option Int)
    (fuel page : Nat) (rowsP : List (List Attr))
    (htab : (site page).table = some rowsP)
    (hthis : (site page).thisPage = (page : Int))
    (hlt : ¬ ((page : Int) ≥ (site page).reportedSize)) :
    categoryTraceSpec site f q (fuel + 1) page =
      PageEvent.fetch page :: (getParts f q rowsP).map PageEvent.yieldPart ++
        categoryTraceSpec site f q fuel (page + 1) := by
  simp [categoryTraceSpec, htab, hthis, hlt]

lemma trace_step_last (site : Nat → Doc) (f : Bool) (q : Option Int)
    (fuel page : Nat) (rowsP : List (List Attr))
    (htab : (site page).table = some rowsP)
    (hthis : (site page).thisPage = (page : Int))
    (hge : (page : Int) ≥ (site page).reportedSize) :
    categoryTraceSpec site f q (fuel + 1) page =
      PageEvent.fetch page :: (getParts f q rowsP).map PageEvent.yieldPart := by
  simp [categoryTraceSpec, htab, hthis, hge]

lemma trace_step_mismatch (site : Nat → Doc) (f : Bool) (q : Option Int)
    (fuel page : Nat) (rowsP : List (List Attr)) (rep : Int)
    (htab : (site page).table = some rowsP)
    (hthis : (site page).thisPage = rep)
    (hne : rep ≠ (page : Int)) :
    categoryTraceSpec site f q (fuel + 1) page =
      PageEvent.fetch page :: (getParts f q rowsP).map PageEvent.yieldPart ++
        [PageEvent.assertFail rep page] := by
  simp [categoryTraceSpec, htab, hthis, hne]

lemma fetchesOf_cons_fetch (n : Nat) (tr : List PageEvent) :
    fetchesOf (PageEvent.fetch n :: tr) = n :: fetchesOf tr := rfl

lemma fetchesOf_assertFail (r : Int) (p : Nat) :
    fetchesOf [PageEvent.assertFail r p] = [] := rfl

lemma fetchesOf_nil : fetchesOf [] = [] := rfl

lemma fetchesOf_append (l1 l2 : List PageEvent) :
    fetchesOf (l1 ++ l2) = fetchesOf l1 ++ fetchesOf l2 := by
  simp [fetchesOf]

lemma fetchesOf_yields (ps : List Part) :
    fetchesOf (ps.map PageEvent.yieldPart) = [] := by
  induction ps with
  | nil => rfl
  | cons p rest ih =>
    rw [List.map_cons,
      show fetchesOf (PageEvent.yieldPart p :: rest.map PageEvent.yieldPart) =
        fetchesOf (rest.map PageEvent.yieldPart) from rfl]
    exact ih

lemma pagesEvents_zero (f : Bool) (q : Option Int) (rows : Nat → List (List Attr))
    (a : Nat) : pagesEvents f q rows a 0 = [] := rfl

lemma pagesEvents_succ (f : Bool) (q : Option Int) (rows : Nat → List (List Attr))
    (a cnt : Nat) :
    pagesEvents f q rows a (cnt + 1) =
      PageEvent.fetch a :: (getParts f q (rows a)).map PageEvent.yieldPart ++
        pagesEvents f q rows (a + 1) cnt := rfl

/-- Supporting result for the C1 code-bug finding, over the spec-modelled
two-argument contract (`categoryTraceSpec`): on a site whose pages 1..3
carry a product table and consistently report "page n of 3", the loop
body of `Category.search` fetches exactly pages 1, 2, 3 in ascending
order, yields each page's surviving parts between that page's fetch and
the next, and terminates after page 3 with no failure event; and on a
site whose page k (1 ≤ k ≤ 3) reports a current page different from k,
the trace ends with the assertion failure right after page k's yields —
no page beyond k is ever fetched.  This is the behaviour the claim and
spec sections 4.4-4.5 describe, which the frozen fetch seam never
reaches. -/
theorem pagination_three_pages
    (site site2 : Nat → Doc) (f : Bool) (q : Option Int)
    (rows rows2 : Nat → List (List Attr)) (m k : Nat) (rep : Int)
    (hA : ∀ n, 1 ≤ n → n ≤ 3 → site n = ⟨some (rows n), (n : Int), 3⟩)
    (hk1 : 1 ≤ k) (hk3 : k ≤ 3)
    (hB : ∀ n, 1 ≤ n → n < k → site2 n = ⟨some (rows2 n), (n : Int), 3⟩)
    (hBk : site2 k = ⟨some (rows2 k), rep, 3⟩)
    (hrep : rep ≠ (k : Int)) :
    (categoryTraceSpec site f q (m + 3) 1 =
        PageEvent.fetch 1 :: (getParts f q (rows 1)).map PageEvent.yieldPart ++
          (PageEvent.fetch 2 :: (getParts f q (rows 2)).map PageEvent.yieldPart ++
            (PageEvent.fetch 3 :: (getParts f q (rows 3)).map PageEvent.yieldPart)) ∧
      fetchesOf (categoryTraceSpec site f q (m + 3) 1) = [1, 2, 3]) ∧
    (categoryTraceSpec site2 f q (m + 3) 1 =
        pagesEvents f q rows2 1 (k - 1) ++
          (PageEvent.fetch k :: (getParts f q (rows2 k)).map PageEvent.yieldPart ++
            [PageEvent.assertFail rep k]) ∧
      fetchesOf (categoryTraceSpec site2 f q (m + 3) 1) = List.range' 1 k) := by
  have h1 := hA 1 (by omega) (by omega)
  have h2 := hA 2 (by omega) (by omega)
  have h3 := hA 3 (by omega) (by omega)
  have eA : categoryTraceSpec site f q (m + 3) 1 =
      PageEvent.fetch 1 :: (getParts f q (rows 1)).map PageEvent.yieldPart ++
        (PageEvent.fetch 2 :: (getParts f q (rows 2)).map PageEvent.yieldPart ++
          (PageEvent.fetch 3 :: (getParts f q (rows 3)).map PageEvent.yieldPart)) := by
    rw [show m + 3 = (m + 2) + 1 from rfl]
    rw [trace_step_consistent site f q (m + 2) 1 (rows 1) (by rw [h1]) (by rw [h1])
      (by rw [h1]; norm_num)]
    rw [show (1 : Nat) + 1 = 2 from rfl]
    rw [show m + 2 = (m + 1) + 1 from rfl]
    rw [trace_step_consistent site f q (m + 1) 2 (rows 2) (by rw [h2]) (by rw [h2])
      (by rw [h2]; norm_num)]
    rw [show (2 : Nat) + 1 = 3 from rfl]
    rw [trace_step_last site f q m 3 (rows 3) (by rw [h3]) (by rw [h3])
      (by rw [h3]; norm_num)]
  refine ⟨⟨eA, ?_⟩, ?_⟩
  · rw [eA]
    simp only [List.cons_append, fetchesOf_cons_fetch, fetchesOf_append, fetchesOf_yields,
      fetchesOf_nil, List.nil_append, List.append_nil]
  · interval_cases k
    · have eB : categoryTraceSpec site2 f q (m + 3) 1 =
          PageEvent.fetch 1 :: (getParts f q (rows2 1)).map PageEvent.yieldPart ++
            [PageEvent.assertFail rep 1] := by
        rw [show m + 3 = (m + 2) + 1 from rfl]
        rw [trace_step_mismatch site2 f q (m + 2) 1 (rows2 1) rep (by rw [hBk]) (by rw [hBk])
          hrep]
      refine ⟨by rw [eB]; simp [pagesEvents_zero], ?_⟩
      rw [eB]
      simp only [List.cons_append, fetchesOf_cons_fetch, fetchesOf_append, fetchesOf_yields,
      fetchesOf_assertFail, fetchesOf_nil, List.nil_append, List.append_nil]
      decide
    · have hb1 := hB 1 (by omega) (by omega)
      have eB : categoryTraceSpec site2 f q (m + 3) 1 =
          PageEvent.fetch 1 :: (getParts f q (rows2 1)).map PageEvent.yieldPart ++
            (PageEvent.fetch 2 :: (getParts f q (rows2 2)).map PageEvent.yieldPart ++
              [PageEvent.assertFail rep 2]) := by
        rw [show m + 3 = (m + 2) + 1 from rfl]
        rw [trace_step_consistent site2 f q (m + 2) 1 (rows2 1) (by rw [hb1]) (by rw [hb1])
          (by rw [hb1]; norm_num)]
        rw [show (1 : Nat) + 1 = 2 from rfl]
        rw [show m + 2 = (m + 1) + 1 from rfl]
        rw [trace_step_mismatch site2 f q (m + 1) 2 (rows2 2) rep (by rw [hBk]) (by rw [hBk])
          hrep]
      refine ⟨by rw [eB]; simp [pagesEvents_succ, pagesEvents_zero], ?_⟩
      rw [eB]
      simp only [List.cons_append, fetchesOf_cons_fetch, fetchesOf_append, fetchesOf_yields,
      fetchesOf_assertFail, fetchesOf_nil, List.nil_append, List.append_nil]
      decide
    · have hb1 := hB 1 (by omega) (by omega)
      have hb2 := hB 2 (by omega) (by omega)
      have eB : categoryTraceSpec site2 f q (m + 3) 1 =
          PageEvent.fetch 1 :: (getParts f q (rows2 1)).map PageEvent.yieldPart ++
            (PageEvent.fetch 2 :: (getParts f q (rows2 2)).map PageEvent.yieldPart ++
              (PageEvent.fetch 3 :: (getParts f q (rows2 3)).map PageEvent.yieldPart ++
                [PageEvent.assertFail rep 3])) := by
        rw [show m + 3 = (m + 2) + 1 from rfl]
        rw [trace_step_consistent site2 f q (m + 2) 1 (rows2 1) (by rw [hb1]) (by rw [hb1])
          (by rw [hb1]; norm_num)]
        rw [show (1 : Nat) + 1 = 2 from rfl]
        rw [show m + 2 = (m + 1) + 1 from rfl]
        rw [trace_step_consistent site2 f q (m + 1) 2 (rows2 2) (by rw [hb2]) (by rw [hb2])
          (by rw [hb2]; norm_num)]
        rw [show (2 : Nat) + 1 = 3 from rfl]
        rw [trace_step_mismatch site2 f q m 3 (rows2 3) rep (by rw [hBk]) (by rw [hBk])
          hrep]
      refine ⟨by rw [eB]; simp [pagesEvents_succ, pagesEvents_zero], ?_⟩
      rw [eB]
      simp only [List.cons_append, fetchesOf_cons_fetch, fetchesOf_append, fetchesOf_yields,
      fetchesOf_assertFail, fetchesOf_nil, List.nil_append, List.append_nil]
      decide

/-- Instance of the supporting result at a concrete empty-rows three-page
site and a site misreporting page 5 on page 1. -/
theorem pagination_three_pages_witness :
    categoryTraceSpec (fun _ => ⟨some [], 5, 3⟩) true (some 1) 3 1 =
      [PageEvent.fetch 1, PageEvent.assertFail 5 1] := by
  have h := (pagination_three_pages
    (fun n => ⟨some [], (n : Int), 3⟩) (fun _ => ⟨some [], 5, 3⟩) true (some 1)
    (fun _ => []) (fun _ => []) 0 1 5
    (fun n _ _ => rfl) (by omega) (by omega)
    (fun n h1 h2 => by omega) rfl (by norm_num)).2.1
  simpa [pagesEvents_zero, getParts] using h

/-- Claim C1 (code bug): against the frozen modules, every iteration of
`Category.search`'s loop starts with the two-positional-argument
`super().search` call, which cannot bind against the one-parameter
`Searchable.search` of search.py — so on any site, any requested page and
any quantity settings the generator raises `TypeError` at its first step:
the trace is the lone `typeError` event, no page is fetched and no part
is yielded, where the claim (matching the spec's two-argument searchable
contract and pagination engine, sections 4.4-4.5) expects fetches of
pages 1, 2, 3 with their yields. -/
theorem pagination_frozen_type_error (site : Nat → Doc) (f : Bool) (q : Option Int)
    (m page : Nat) :
    categoryTrace site f q (m + 1) page = [PageEvent.typeError] ∧
      fetchesOf (categoryTrace site f q (m + 1) page) = [] := by
  have hs : superSearch site page = .error () := rfl
  constructor
  · simp only [categoryTrace, hs]
  · simp only [categoryTrace, hs]
    rfl

end Digikey
